import Mathlib

/-!
Verification of the ETL reconciliation core (`src/etl.py`, with the joiner
consumed by `src/api.py`) against its natural-language specification.

The embedding works on ordered lists of records.  A raw cell is a small
tagged union (string / integer / null), mirroring the untyped scalars a
pandas column can hold for the inputs that reach this pipeline.
-/

namespace EtlRecon

/-- A raw scalar cell: a string, an integer, or a null (pandas `NaN`). -/
inductive Val where
  | vStr : String → Val
  | vInt : Int → Val
  | vNull : Val
deriving DecidableEq

/-- `pd.isna` on a cell: only the null scalar is missing. -/
def Val.isNull : Val → Bool
  | .vNull => true
  | _ => false

/-- A calendar date as produced by `pd.to_datetime` (year, month, day). -/
structure Date where
  year : Nat
  month : Nat
  day : Nat
deriving DecidableEq

/-- Errors raised by the core (`ValueError` messages in `src/etl.py`):
"… dataset is empty" and "Duplicate … IDs found". -/
inductive EtlError where
  | emptyDataset : EtlError
  | duplicateKey : EtlError
deriving DecidableEq

/- ---------------------------------------------------------------------
   Character-level helpers (kernel-evaluable replacements for the string
   primitives the Python code relies on).
--------------------------------------------------------------------- -/

/-- Split a character list on a separator, like Python `str.split(sep)`. -/
def splitOnChar (sep : Char) : List Char → List (List Char)
  | [] => [[]]
  | c :: cs =>
    let r := splitOnChar sep cs
    if c = sep then [] :: r
    else
      match r with
      | [] => [[c]]
      | g :: gs => (c :: g) :: gs

/-- Strip leading and trailing spaces. -/
def trimSpaces (cs : List Char) : List Char :=
  (((cs.dropWhile (fun c => c = ' ')).reverse.dropWhile (fun c => c = ' ')).reverse)

/-- The value of one decimal digit, or `none` for a non-digit. -/
def digitVal (c : Char) : Option Nat :=
  if c.isDigit then some (c.toNat - 48) else none

def digitsToNatAux (acc : Nat) : List Char → Option Nat
  | [] => some acc
  | c :: cs =>
    match digitVal c with
    | some d => digitsToNatAux (acc * 10 + d) cs
    | none => none

/-- Read a non-empty all-digit character list as a natural number. -/
def digitsToNat : List Char → Option Nat
  | [] => none
  | cs => digitsToNatAux 0 cs

/- ---------------------------------------------------------------------
   Date parsing: embeds `pd.to_datetime(col, errors="coerce")` as called
   in `clean_customers` (line 70) and `clean_orders` (line 133).  The
   call does NOT pass `dayfirst=True`, so slash-separated numeric dates
   are read month-first ("03/04/2023" is March 4, 2023); the parser only
   swaps to day-first for an element whose first field cannot be a month
   (dateutil's fallback).  The model covers `a/b/y` numeric strings and
   treats every other string as unparseable (`NaT`), which is the shape
   of every date in this repository's data and tests.
--------------------------------------------------------------------- -/

def isLeap (y : Nat) : Bool :=
  decide (y % 4 = 0) && (!(decide (y % 100 = 0)) || decide (y % 400 = 0))

def daysInMonth (m y : Nat) : Nat :=
  if m = 2 then (if isLeap y then 29 else 28)
  else if m = 4 ∨ m = 6 ∨ m = 9 ∨ m = 11 then 30
  else 31

/-- Can `m` be a month and `d` a day of that month in year `y`? -/
def validMD (m d y : Nat) : Bool :=
  decide (1 ≤ m) && decide (m ≤ 12) && decide (1 ≤ d) && decide (d ≤ daysInMonth m y)

/-- `pd.to_datetime(s, errors="coerce")` on one cell, month-first default. -/
def parseDate (s : String) : Option Date :=
  match splitOnChar '/' (trimSpaces s.data) with
  | [a, b, y] =>
    match digitsToNat a, digitsToNat b, digitsToNat y with
    | some p, some q, some yr =>
      if validMD p q yr then some ⟨yr, p, q⟩
      else if validMD q p yr then some ⟨yr, q, p⟩
      else none
    | _, _, _ => none
  | _ => none

/- ---------------------------------------------------------------------
   Numeric coercion: embeds `pd.to_numeric(col, errors="coerce")` from
   `clean_orders` (line 129) on integer cells and plain decimal strings
   (optional sign, digits, optional fractional part); anything else
   coerces to null.
--------------------------------------------------------------------- -/

def parseUnsignedDec (cs : List Char) : Option Rat :=
  match splitOnChar '.' cs with
  | [w] => (digitsToNat w).map (fun n => (n : Rat))
  | [w, f] =>
    match digitsToNat w, digitsToNat f with
    | some n, some fr => some (mkRat (n * 10 ^ f.length + fr) (10 ^ f.length))
    | _, _ => none
  | _ => none

def parseDecimal : List Char → Option Rat
  | '-' :: rest => (parseUnsignedDec rest).map (fun q => -q)
  | cs => parseUnsignedDec cs

/-- `pd.to_numeric(x, errors="coerce")` on one cell. -/
def parseNumeric : Val → Option Rat
  | .vInt n => some ((n : Int) : Rat)
  | .vNull => none
  | .vStr s => parseDecimal (trimSpaces s.data)

/- ---------------------------------------------------------------------
   Email validity: embeds `df["email"].str.match(EMAIL_REGEX)` with
   `EMAIL_REGEX = r"[^@]+@[^@]+\.[^@]+"` (`src/etl.py` lines 11 and 67).
   `Series.str.match` uses `re.match`, which anchors at the START of the
   string only: the regex has to match some prefix, and arbitrary
   trailing characters are allowed.  The scanner below runs the match:
   one or more non-at characters, a literal at sign, then (inside the
   at-free run that follows) a dot with at least one non-at character on
   each side.
--------------------------------------------------------------------- -/

/-- Scan for `[^@]+\.[^@]` inside the text after the at sign.  `seen`
records whether at least one character has already been consumed for the
mandatory `[^@]+` before the dot. -/
def tailMatch (seen : Bool) : List Char → Bool
  | [] => false
  | x :: r =>
    if x = '@' then false
    else if seen = true ∧ x = '.' then
      match r with
      | [] => false
      | d :: _ => decide (d ≠ '@')
    else tailMatch true r

/-- Drop characters up to and including the first at sign. -/
def findAt : List Char → Option (List Char)
  | [] => none
  | c :: cs => if c = '@' then some cs else findAt cs

/-- `re.match(EMAIL_REGEX, cs)` on a character list. -/
def emailMatchCore : List Char → Bool
  | [] => false
  | c :: cs =>
    if c = '@' then false
    else
      match findAt cs with
      | none => false
      | some rest => tailMatch false rest

/-- `re.match(EMAIL_REGEX, s) is not None`. -/
def emailMatch (s : String) : Bool :=
  emailMatchCore s.data

/- ---------------------------------------------------------------------
   Row types.
--------------------------------------------------------------------- -/

/-- A raw customers row: `customer_id`, `email`, `signup_date` columns. -/
structure RawCustomer where
  customer_id : Val
  email : String
  signup_date : String
deriving DecidableEq

/-- A cleaned customers row (`clean_customers` output). -/
structure Customer where
  customer_id : Val
  email : String
  email_valid : Bool
  signup_date : Option Date
  signup_date_valid : Bool
deriving DecidableEq

/-- A raw orders row: `order_id`, `customer_id`, `amount`, `order_date`. -/
structure RawOrder where
  order_id : Val
  customer_id : Val
  amount : Val
  order_date : String
deriving DecidableEq

/-- A cleaned orders row (`clean_orders` output). -/
structure Order where
  order_id : Val
  customer_id : Val
  amount : Option Rat
  amount_valid : Bool
  order_date : Option Date
  order_date_valid : Bool
deriving DecidableEq

/- ---------------------------------------------------------------------
   Customer pipeline (`src/etl.py` lines 51-76, 39-48).
--------------------------------------------------------------------- -/

/-- `df.drop_duplicates(subset=["customer_id"])`: keep the first row for
each `customer_id` (pandas default `keep="first"`), preserving order.
`seen` is the set of keys already kept. -/
def dropDuplicatesBy (seen : List Val) : List RawCustomer → List RawCustomer
  | [] => []
  | r :: rs =>
    if r.customer_id ∈ seen then dropDuplicatesBy seen rs
    else r :: dropDuplicatesBy (r.customer_id :: seen) rs

/-- Per-row column derivation of `clean_customers`: `email_valid` from the
regex match, `signup_date` re-parsed with the validity flag
`~df["signup_date"].isna()`. -/
def cleanCustomerRow (r : RawCustomer) : Customer :=
  ⟨r.customer_id, r.email, emailMatch r.email,
    parseDate r.signup_date, (parseDate r.signup_date).isSome⟩

/-- `clean_customers` (lines 51-76): drop rows with null `customer_id`,
drop duplicate keys keeping the first, then derive the flag columns.
The function never raises; the removed-row count is only printed. -/
def clean_customers (rows : List RawCustomer) : List Customer :=
  (dropDuplicatesBy [] (rows.filter (fun r => !(r.customer_id.isNull)))).map
    cleanCustomerRow

/-- Does any value occur twice (`Series.duplicated().any()`)? -/
def hasDup : List Val → Bool
  | [] => false
  | v :: vs => decide (v ∈ vs) || hasDup vs

/-- `validate_customers` (lines 39-48): raises on an empty dataset;
duplicate ids only trigger a printed warning, never an error. -/
def validate_customers (rows : List Customer) : Except EtlError Unit :=
  if rows.isEmpty then .error .emptyDataset else .ok ()

/-- The clean-then-validate sequence run by `load_customers_csv`
(lines 31-34) and by the `/upload/customers` endpoint of `src/api.py`. -/
def clean_and_validate_customers (rows : List RawCustomer) :
    Except EtlError (List Customer) :=
  (validate_customers (clean_customers rows)).map (fun _ => clean_customers rows)

/- ---------------------------------------------------------------------
   Order pipeline (`src/etl.py` lines 116-139, 104-113).
--------------------------------------------------------------------- -/

/-- Per-row column derivation of `clean_orders`: `amount` coerced to
numeric with its flag, `order_date` parsed with its flag. -/
def cleanOrderRow (r : RawOrder) : Order :=
  ⟨r.order_id, r.customer_id, parseNumeric r.amount,
    (parseNumeric r.amount).isSome,
    parseDate r.order_date, (parseDate r.order_date).isSome⟩

/-- `clean_orders` (lines 116-139): drop rows with a null `order_id` or
`customer_id`, then coerce `amount` and `order_date`.  No duplicate
handling happens here. -/
def clean_orders (rows : List RawOrder) : List Order :=
  (rows.filter
      (fun r => !(r.order_id.isNull) && !(r.customer_id.isNull))).map
    cleanOrderRow

/-- `validate_orders` (lines 104-113): raises on an empty dataset, then
raises on any duplicated `order_id`. -/
def validate_orders (rows : List Order) : Except EtlError Unit :=
  if rows.isEmpty then .error .emptyDataset
  else if hasDup (rows.map (fun o => o.order_id)) then .error .duplicateKey
  else .ok ()

/-- The clean-then-validate sequence run by `load_orders_csv`
(lines 96-99) and by the `/upload/orders` endpoint of `src/api.py`. -/
def clean_and_validate_orders (rows : List RawOrder) :
    Except EtlError (List Order) :=
  (validate_orders (clean_orders rows)).map (fun _ => clean_orders rows)

/- ---------------------------------------------------------------------
   Reconciliation (`src/etl.py` lines 145-177).
--------------------------------------------------------------------- -/

/-- The `summary` dict of `reconcile_customers_orders`. -/
structure Summary where
  total_customers : Nat
  total_orders : Nat
  orders_without_customers : Nat
  customers_without_orders : Nat
deriving DecidableEq

/-- The dict returned by `reconcile_customers_orders`. -/
structure Report where
  orders_without_customers : List Order
  customers_without_orders : List Customer
  summary : Summary
deriving DecidableEq

/-- `reconcile_customers_orders` (lines 145-177): plain `isin` membership
filters on the `customer_id` columns exactly as stored — the function
applies no normalization of its own — plus the four summary counts. -/
def reconcile_customers_orders (customers : List Customer)
    (orders : List Order) : Report :=
  let custKeys : List Val := customers.map (fun c => c.customer_id)
  let ordKeys : List Val := orders.map (fun o => o.customer_id)
  let owc := orders.filter (fun o => !(decide (o.customer_id ∈ custKeys)))
  let cwo := customers.filter (fun c => !(decide (c.customer_id ∈ ordKeys)))
  ⟨owc, cwo, ⟨customers.length, orders.length, owc.length, cwo.length⟩⟩

/- ---------------------------------------------------------------------
   Spec-side definitions.  These two follow the SPEC's words, not the
   code; they exist to state the spec's claims next to the code's actual
   behaviour.
--------------------------------------------------------------------- -/

/-- Lowercase one ASCII letter. -/
def toLowerChar (c : Char) : Char :=
  if 'A' ≤ c ∧ c ≤ 'Z' then Char.ofNat (c.toNat + 32) else c

/-- Strip one trailing ".0" from a character list, if present. -/
def stripDot0 (cs : List Char) : List Char :=
  match cs.reverse with
  | '0' :: '.' :: rest => rest.reverse
  | _ => cs

/-- The Normalizer of spec section 4.1, written from the spec's words:
string representation, trailing ".0" stripped, surrounding whitespace
removed, lowercased; a null normalizes to the literal "nan".  No such
function exists anywhere in `src/etl.py`. -/
def specNormalize : Val → String
  | .vStr s => String.mk ((trimSpaces (stripDot0 s.data)).map toLowerChar)
  | .vInt n => toString n
  | .vNull => "nan"

/-- The email shape of spec section 4.2 step 4, written from the spec's
words: at least one character before the at sign, at least one between
the at sign and the last dot, and at least one after that dot, with the
shape covering the whole string (the claim counts extra content beyond
the shape as invalid). -/
def specEmailShape (s : String) : Bool :=
  let cs := s.data
  match cs.findIdx? (fun c => c = '@'), cs.reverse.findIdx? (fun c => c = '.') with
  | some i, some jr =>
    let j := cs.length - 1 - jr
    decide (1 ≤ i) && decide (i + 2 ≤ j) && decide (j + 2 ≤ cs.length)
  | _, _ => false

/- ---------------------------------------------------------------------
   Dataset joiner.
--------------------------------------------------------------------- -/

/-- A row of the combined (left-joined) dataset: the order columns, the
matching customer's columns as optional values, and `customer_exists`. -/
structure CombinedRow where
  order_id : Val
  customer_id : Val
  amount : Option Rat
  amount_valid : Bool
  order_date : Option Date
  order_date_valid : Bool
  email : Option String
  email_valid : Bool
  signup_date : Option Date
  signup_date_valid : Bool
  customer_exists : Bool
deriving DecidableEq

/-- Join one order row against the customers (first customer whose
normalized key equals the order's normalized key, if any). -/
def joinRow (customers : List Customer) (o : Order) : CombinedRow :=
  match customers.find?
      (fun c => decide (specNormalize c.customer_id = specNormalize o.customer_id)) with
  | some c =>
    ⟨o.order_id, o.customer_id, o.amount, o.amount_valid, o.order_date,
      o.order_date_valid, some c.email, c.email_valid, c.signup_date,
      c.signup_date_valid, true⟩
  | none =>
    ⟨o.order_id, o.customer_id, o.amount, o.amount_valid, o.order_date,
      o.order_date_valid, none, false, none, false, false⟩

/-- Modelled from the spec: `build_reconciled_dataset` is imported from
`src.etl` by `src/api.py` but is absent from the `src/etl.py` in this
repository, so it is reconstructed here from spec section 4.7: keys
compared on their normalized form, a left join in which every order row
appears exactly once — augmented with the matching customer's columns
when one exists and with nulls otherwise — plus a `customer_exists`
boolean, with the customer-side validity flags `email_valid` and
`signup_date_valid` defaulted to `false` when no customer matches. -/
def build_reconciled_dataset (customers : List Customer)
    (orders : List Order) : List CombinedRow :=
  orders.map (joinRow customers)

/- ---------------------------------------------------------------------
   Helper lemmas.
--------------------------------------------------------------------- -/

lemma dropDup_sublist (seen : List Val) (l : List RawCustomer) :
    (dropDuplicatesBy seen l).Sublist l := by
  induction l generalizing seen with
  | nil => simp [dropDuplicatesBy]
  | cons r rs ih =>
    simp only [dropDuplicatesBy]
    split
    · exact (ih seen).cons r
    · exact (ih _).cons₂ r

lemma mem_of_dropDup {seen : List Val} {l : List RawCustomer} {r : RawCustomer}
    (h : r ∈ dropDuplicatesBy seen l) : r ∈ l :=
  (dropDup_sublist seen l).subset h

lemma hasDup_iff (l : List Val) : hasDup l = true ↔ ¬ l.Nodup := by
  induction l with
  | nil => simp [hasDup]
  | cons v vs ih =>
    simp only [hasDup, Bool.or_eq_true, decide_eq_true_eq, ih, List.nodup_cons]
    tauto

end EtlRecon

namespace EtlRecon

/- ---------------------------------------------------------------------
   Claim C1.
--------------------------------------------------------------------- -/

/-- C1 counterexample: the claim states that `reconcile` places an order
row in `orders_without_customers` iff the NORMALIZED form of its
`customer_id` is absent from the normalized customer keys.  With a
customer key "abc" and an order key "ABC" the normalized forms agree, yet
the code — which compares raw values with `isin` and never normalizes —
still reports the order as orphaned. -/
theorem c1_counterexample :
    ¬ (∀ o ∈ ([⟨.vInt 10, .vStr "ABC", some 5, true, none, false⟩] : List Order),
        (o ∈ (reconcile_customers_orders
            [⟨.vStr "abc", "a@x.com", true, none, false⟩]
            [⟨.vInt 10, .vStr "ABC", some 5, true, none, false⟩]).orders_without_customers ↔
          specNormalize o.customer_id ∉
            ([⟨.vStr "abc", "a@x.com", true, none, false⟩] : List Customer).map
              (fun c => specNormalize c.customer_id))) := by
  decide

/-- C1 (amended): `reconcile_customers_orders` compares the `customer_id`
columns exactly as stored, with no normalization: an order row lands in
`orders_without_customers` iff its raw `customer_id` is absent from the
raw customer keys. -/
theorem c1_amended (cs : List Customer) (os : List Order) (o : Order)
    (ho : o ∈ os) :
    o ∈ (reconcile_customers_orders cs os).orders_without_customers ↔
      o.customer_id ∉ cs.map (fun c => c.customer_id) := by
  simp [reconcile_customers_orders, List.mem_filter, ho]

/-- C1 witness: the amended theorem applied to a concrete customer list
and a concrete order whose raw key does not occur among the customers. -/
theorem c1_amended_witness :
    (⟨.vInt 10, .vStr "xyz", some 5, true, none, false⟩ : Order) ∈
        (reconcile_customers_orders
          [⟨.vStr "abc", "a@x.com", true, none, false⟩]
          [⟨.vInt 10, .vStr "xyz", some 5, true, none, false⟩]).orders_without_customers ↔
      (Val.vStr "xyz") ∉
        ([⟨.vStr "abc", "a@x.com", true, none, false⟩] : List Customer).map
          (fun c => c.customer_id) :=
  c1_amended [⟨.vStr "abc", "a@x.com", true, none, false⟩]
    [⟨.vInt 10, .vStr "xyz", some 5, true, none, false⟩]
    ⟨.vInt 10, .vStr "xyz", some 5, true, none, false⟩ (by decide)

/- ---------------------------------------------------------------------
   Claim C2.
--------------------------------------------------------------------- -/

/-- C2 (code bug evaluation): on the exact input of the repository's own
test `test_remove_duplicate_customer_ids` — customer ids "abc", "ABC",
"def" — `clean_customers` followed by `validate_customers` succeeds and
returns all three rows, whereas the spec and that test demand a
DuplicateKey failure once normalization collapses "abc" and "ABC". -/
theorem c2_code_behaviour :
    clean_and_validate_customers
        [⟨.vStr "abc", "test@gmail.com", "01/01/2023"⟩,
         ⟨.vStr "ABC", "test2@gmail.com", "02/01/2023"⟩,
         ⟨.vStr "def", "test3@gmail.com", "03/01/2023"⟩] =
      .ok (clean_customers
        [⟨.vStr "abc", "test@gmail.com", "01/01/2023"⟩,
         ⟨.vStr "ABC", "test2@gmail.com", "02/01/2023"⟩,
         ⟨.vStr "def", "test3@gmail.com", "03/01/2023"⟩]) ∧
    (clean_customers
        [⟨.vStr "abc", "test@gmail.com", "01/01/2023"⟩,
         ⟨.vStr "ABC", "test2@gmail.com", "02/01/2023"⟩,
         ⟨.vStr "def", "test3@gmail.com", "03/01/2023"⟩]).length = 3 :=
  ⟨rfl, rfl⟩

/- ---------------------------------------------------------------------
   Claim C3.
--------------------------------------------------------------------- -/

/-- C3 counterexample: the claim states that "03/04/2023" parses to
3 April 2023 (day-first).  The code calls `pd.to_datetime` without
`dayfirst=True`, so the cleaned cell holds March 4, 2023. -/
theorem c3_counterexample :
    (clean_customers [⟨.vInt 1, "a@b.c", "03/04/2023"⟩]).map
        (fun c => c.signup_date) = [some ⟨2023, 3, 4⟩] ∧
      (⟨2023, 3, 4⟩ : Date) ≠ ⟨2023, 4, 3⟩ := by
  decide

/-- C3 (amended): the date columns are parsed MONTH-first (the pandas
default, since `dayfirst` is never passed): "03/04/2023" parses to
March 4, 2023.  The rest of the claim stands: every cleaned date cell is
the parse of the corresponding raw cell, and the validity flag is true
exactly when the parse succeeded (null cell otherwise). -/
theorem c3_amended (crows : List RawCustomer) (orows : List RawOrder)
    (c : Customer) (o : Order)
    (hc : c ∈ clean_customers crows) (ho : o ∈ clean_orders orows) :
    parseDate "03/04/2023" = some ⟨2023, 3, 4⟩ ∧
    c.signup_date_valid = c.signup_date.isSome ∧
    (∃ r ∈ crows, c.signup_date = parseDate r.signup_date) ∧
    o.order_date_valid = o.order_date.isSome ∧
    (∃ r ∈ orows, o.order_date = parseDate r.order_date) := by
  simp only [clean_customers] at hc
  simp only [clean_orders] at ho
  obtain ⟨r, hr, rfl⟩ := List.mem_map.mp hc
  obtain ⟨q, hq, rfl⟩ := List.mem_map.mp ho
  refine ⟨by decide, rfl, ⟨r, ?_, rfl⟩, rfl, ⟨q, ?_, rfl⟩⟩
  · exact (List.mem_filter.mp (mem_of_dropDup hr)).1
  · exact (List.mem_filter.mp hq).1

/-- C3 witness: the amended theorem applied to one concrete customers
row and one concrete orders row. -/
theorem c3_amended_witness :
    ∃ r ∈ ([⟨.vInt 1, "a@b.c", "03/04/2023"⟩] : List RawCustomer),
      (cleanCustomerRow ⟨.vInt 1, "a@b.c", "03/04/2023"⟩).signup_date =
        parseDate r.signup_date :=
  (c3_amended [⟨.vInt 1, "a@b.c", "03/04/2023"⟩]
      [⟨.vInt 7, .vInt 1, .vInt 10, "13/04/2023"⟩]
      (cleanCustomerRow ⟨.vInt 1, "a@b.c", "03/04/2023"⟩)
      (cleanOrderRow ⟨.vInt 7, .vInt 1, .vInt 10, "13/04/2023"⟩)
      (by decide) (by decide)).2.2.1

/- ---------------------------------------------------------------------
   Claim C5.
--------------------------------------------------------------------- -/

/-- C5 counterexample: the claim states that for every order exactly one
of "in `orders_without_customers`" and "normalized key among normalized
customer keys" holds.  With a customer key " abc " and an order key
"abc" BOTH hold: the raw `isin` check misses the match, while the
normalized keys agree. -/
theorem c5_counterexample :
    ¬ (∀ o ∈ ([⟨.vInt 20, .vStr "abc", some 3, true, none, false⟩] : List Order),
        (o ∈ (reconcile_customers_orders
              [⟨.vStr " abc ", "x@y.z", true, none, false⟩]
              [⟨.vInt 20, .vStr "abc", some 3, true, none, false⟩]).orders_without_customers ∧
            specNormalize o.customer_id ∉
              ([⟨.vStr " abc ", "x@y.z", true, none, false⟩] : List Customer).map
                (fun c => specNormalize c.customer_id)) ∨
        (o ∉ (reconcile_customers_orders
              [⟨.vStr " abc ", "x@y.z", true, none, false⟩]
              [⟨.vInt 20, .vStr "abc", some 3, true, none, false⟩]).orders_without_customers ∧
            specNormalize o.customer_id ∈
              ([⟨.vStr " abc ", "x@y.z", true, none, false⟩] : List Customer).map
                (fun c => specNormalize c.customer_id))) := by
  decide

/-- C5 (amended): the partition law holds for the RAW keys the code
actually compares: for every order row, exactly one of "the row is in
`orders_without_customers`" and "its raw `customer_id` occurs among the
raw customer keys" holds — never both, never neither. -/
theorem c5_amended (cs : List Customer) (os : List Order) (o : Order)
    (ho : o ∈ os) :
    (o ∈ (reconcile_customers_orders cs os).orders_without_customers ∧
        o.customer_id ∉ cs.map (fun c => c.customer_id)) ∨
    (o ∉ (reconcile_customers_orders cs os).orders_without_customers ∧
        o.customer_id ∈ cs.map (fun c => c.customer_id)) := by
  by_cases h : o.customer_id ∈ cs.map (fun c => c.customer_id)
  · right
    refine ⟨?_, h⟩
    rw [List.mem_map] at h
    simp [reconcile_customers_orders, List.mem_filter]
    exact fun _ => h
  · left
    refine ⟨?_, h⟩
    simp [reconcile_customers_orders, List.mem_filter, ho]
    intro x hx he
    exact h (List.mem_map.mpr ⟨x, hx, he⟩)

/-- C5 witness: the amended theorem applied to a matching concrete pair,
landing in the second branch of the disjunction. -/
theorem c5_amended_witness :
    ((⟨.vInt 20, .vStr "k1", some 3, true, none, false⟩ : Order) ∈
        (reconcile_customers_orders
          [⟨.vStr "k1", "x@y.z", true, none, false⟩]
          [⟨.vInt 20, .vStr "k1", some 3, true, none, false⟩]).orders_without_customers ∧
      (Val.vStr "k1") ∉
        ([⟨.vStr "k1", "x@y.z", true, none, false⟩] : List Customer).map
          (fun c => c.customer_id)) ∨
    ((⟨.vInt 20, .vStr "k1", some 3, true, none, false⟩ : Order) ∉
        (reconcile_customers_orders
          [⟨.vStr "k1", "x@y.z", true, none, false⟩]
          [⟨.vInt 20, .vStr "k1", some 3, true, none, false⟩]).orders_without_customers ∧
      (Val.vStr "k1") ∈
        ([⟨.vStr "k1", "x@y.z", true, none, false⟩] : List Customer).map
          (fun c => c.customer_id)) :=
  c5_amended [⟨.vStr "k1", "x@y.z", true, none, false⟩]
    [⟨.vInt 20, .vStr "k1", some 3, true, none, false⟩]
    ⟨.vInt 20, .vStr "k1", some 3, true, none, false⟩ (by decide)

/- ---------------------------------------------------------------------
   Claim C8.
--------------------------------------------------------------------- -/

/-- C8: `reconcile_customers_orders` is a pure function of its two
row-set arguments (the Python function reads no module state and mutates
nothing): two calls on unchanged inputs return identical results in all
three components. -/
theorem c8_deterministic (cs₁ cs₂ : List Customer) (os₁ os₂ : List Order)
    (hc : cs₁ = cs₂) (ho : os₁ = os₂) :
    (reconcile_customers_orders cs₁ os₁).orders_without_customers =
        (reconcile_customers_orders cs₂ os₂).orders_without_customers ∧
    (reconcile_customers_orders cs₁ os₁).customers_without_orders =
        (reconcile_customers_orders cs₂ os₂).customers_without_orders ∧
    (reconcile_customers_orders cs₁ os₁).summary =
        (reconcile_customers_orders cs₂ os₂).summary := by
  subst hc
  subst ho
  exact ⟨rfl, rfl, rfl⟩

/-- C8 witness: determinism at a concrete customers/orders pair. -/
theorem c8_deterministic_witness :
    (reconcile_customers_orders
        [⟨.vInt 1, "a@b.c", true, none, false⟩]
        [⟨.vInt 9, .vInt 2, some 7, true, none, false⟩]).summary =
      (reconcile_customers_orders
        [⟨.vInt 1, "a@b.c", true, none, false⟩]
        [⟨.vInt 9, .vInt 2, some 7, true, none, false⟩]).summary :=
  (c8_deterministic
      [⟨.vInt 1, "a@b.c", true, none, false⟩]
      [⟨.vInt 1, "a@b.c", true, none, false⟩]
      [⟨.vInt 9, .vInt 2, some 7, true, none, false⟩]
      [⟨.vInt 9, .vInt 2, some 7, true, none, false⟩] rfl rfl).2.2

/- ---------------------------------------------------------------------
   Claim C9.
--------------------------------------------------------------------- -/

/-- C9: on zero-row inputs `reconcile_customers_orders` returns empty
orphan subsets and an all-zero summary without failing, while the two
validators are the functions that reject zero rows with the
empty-dataset error. -/
theorem c9_empty_inputs :
    reconcile_customers_orders [] [] = ⟨[], [], ⟨0, 0, 0, 0⟩⟩ ∧
    validate_customers [] = .error .emptyDataset ∧
    validate_orders [] = .error .emptyDataset :=
  ⟨rfl, rfl, rfl⟩

/- ---------------------------------------------------------------------
   Claim C4.
--------------------------------------------------------------------- -/

/-- C4: an Orders row-set that still contains a repeated `order_id` after
the null-key rows are dropped makes the cleaning-validation pipeline fail
with the duplicate-key error, and cleaning itself drops nothing beyond
the null-key rows (no duplicate is silently removed: the cleaned length
equals the post-drop length). -/
theorem c4_duplicate_orders (rows : List RawOrder)
    (h : ¬ ((rows.filter
        (fun r => !(r.order_id.isNull) && !(r.customer_id.isNull))).map
          (fun r => r.order_id)).Nodup) :
    clean_and_validate_orders rows = .error .duplicateKey ∧
    (clean_orders rows).length =
      (rows.filter
        (fun r => !(r.order_id.isNull) && !(r.customer_id.isNull))).length := by
  have hkeys : (clean_orders rows).map (fun o => o.order_id) =
      (rows.filter
        (fun r => !(r.order_id.isNull) && !(r.customer_id.isNull))).map
          (fun r => r.order_id) := by
    simp only [clean_orders, List.map_map]
    rfl
  have hdup : hasDup ((clean_orders rows).map (fun o => o.order_id)) = true := by
    rw [hkeys]
    exact (hasDup_iff _).mpr h
  have hne : (clean_orders rows).isEmpty = false := by
    cases hcl : clean_orders rows with
    | nil =>
      exfalso
      apply h
      rw [← hkeys, hcl]
      exact List.nodup_nil
    | cons a l => rfl
  constructor
  · simp [clean_and_validate_orders, validate_orders, hne, hdup, Except.map]
  · simp [clean_orders]

/-- C4 witness: the pipeline rejects a concrete two-row order set whose
rows share `order_id` 1. -/
theorem c4_duplicate_orders_witness :
    clean_and_validate_orders
        [⟨.vInt 1, .vInt 10, .vInt 100, "01/01/2023"⟩,
         ⟨.vInt 1, .vInt 20, .vInt 150, "02/01/2023"⟩] =
      .error .duplicateKey :=
  (c4_duplicate_orders
      [⟨.vInt 1, .vInt 10, .vInt 100, "01/01/2023"⟩,
       ⟨.vInt 1, .vInt 20, .vInt 150, "02/01/2023"⟩] (by decide)).1

/- ---------------------------------------------------------------------
   Claim C10: lemmas about keep-first deduplication, then the claim.
--------------------------------------------------------------------- -/

lemma dropDup_mem (seen : List Val) (l : List RawCustomer) (r : RawCustomer) :
    r ∈ dropDuplicatesBy seen l ↔
      (r.customer_id ∉ seen ∧
        l.find? (fun x => decide (x.customer_id = r.customer_id)) = some r) := by
  induction l generalizing seen with
  | nil => simp [dropDuplicatesBy]
  | cons x xs ih =>
    by_cases hx : x.customer_id ∈ seen
    · rw [show dropDuplicatesBy seen (x :: xs) = dropDuplicatesBy seen xs from
        by simp [dropDuplicatesBy, hx]]
      by_cases hxy : x.customer_id = r.customer_id
      · constructor
        · rintro hm
          exact absurd (hxy ▸ hx) ((ih seen).mp hm).1
        · rintro ⟨hns, -⟩
          exact absurd (hxy ▸ hx) hns
      · rw [ih seen, List.find?_cons_of_neg _ (by simpa using hxy)]
    · rw [show dropDuplicatesBy seen (x :: xs) =
          x :: dropDuplicatesBy (x.customer_id :: seen) xs from
        by simp [dropDuplicatesBy, hx]]
      by_cases hxy : x.customer_id = r.customer_id
      · rw [List.find?_cons_of_pos _ (by simpa using hxy)]
        constructor
        · rintro hm
          rcases List.mem_cons.mp hm with rfl | hm'
          · exact ⟨hxy ▸ hx, rfl⟩
          · have := ((ih _).mp hm').1
            exact absurd (List.mem_cons_self _ _) (hxy ▸ this)
        · rintro ⟨-, heq⟩
          exact List.mem_cons.mpr (Or.inl (Option.some_injective _ heq).symm)
      · rw [List.find?_cons_of_neg _ (by simpa using hxy)]
        constructor
        · rintro hm
          rcases List.mem_cons.mp hm with rfl | hm'
          · exact absurd rfl hxy
          · obtain ⟨hns, hf⟩ := (ih _).mp hm'
            exact ⟨fun hmem => hns (List.mem_cons_of_mem _ hmem), hf⟩
        · rintro ⟨hns, hf⟩
          refine List.mem_cons.mpr (Or.inr ((ih _).mpr ⟨?_, hf⟩))
          intro hmem
          rcases List.mem_cons.mp hmem with he | hmem'
          · exact hxy he.symm
          · exact hns hmem'

lemma dropDup_keys (seen : List Val) (l : List RawCustomer) :
    (∀ v ∈ (dropDuplicatesBy seen l).map (fun r => r.customer_id), v ∉ seen) ∧
    ((dropDuplicatesBy seen l).map (fun r => r.customer_id)).Nodup := by
  induction l generalizing seen with
  | nil => simp [dropDuplicatesBy]
  | cons x xs ih =>
    by_cases hx : x.customer_id ∈ seen
    · simpa [dropDuplicatesBy, hx] using ih seen
    · have h1 := ih (x.customer_id :: seen)
      constructor
      · intro v hv
        simp only [dropDuplicatesBy, if_neg hx, List.map_cons, List.mem_cons] at hv
        rcases hv with rfl | hv'
        · exact hx
        · intro hvs
          exact (h1.1 v hv') (List.mem_cons_of_mem _ hvs)
      · simp only [dropDuplicatesBy, if_neg hx, List.map_cons, List.nodup_cons]
        refine ⟨fun hmem => ?_, h1.2⟩
        exact (h1.1 _ hmem) (List.mem_cons_self _ _)

lemma dropDup_keys_cover (seen : List Val) (l : List RawCustomer)
    (r : RawCustomer) (hr : r ∈ l) (hns : r.customer_id ∉ seen) :
    r.customer_id ∈ (dropDuplicatesBy seen l).map (fun x => x.customer_id) := by
  induction l generalizing seen with
  | nil => cases hr
  | cons x xs ih =>
    by_cases hx : x.customer_id ∈ seen
    · rcases List.mem_cons.mp hr with rfl | hr'
      · exact absurd hx hns
      · simpa [dropDuplicatesBy, hx] using ih seen hr' hns
    · simp only [dropDuplicatesBy, if_neg hx, List.map_cons, List.mem_cons]
      by_cases hxy : r.customer_id = x.customer_id
      · exact Or.inl hxy
      · rcases List.mem_cons.mp hr with rfl | hr'
        · exact Or.inl rfl
        · refine Or.inr (ih (x.customer_id :: seen) hr' ?_)
          intro hmem
          rcases List.mem_cons.mp hmem with he | hmem'
          · exact hxy he
          · exact hns hmem'

/-- C10: on raw customer rows with repeated raw `customer_id` values,
`clean_customers` returns without error a row-set `kept` in which, for
each key, exactly the FIRST row of the null-dropped input is retained
(`find?` picks the first occurrence), later rows with the same key are
dropped (the kept keys are duplicate-free), the relative order of kept
rows is preserved (`Sublist`), and every non-null key of the input is
still represented. -/
theorem c10_keep_first (rows : List RawCustomer) :
    ∃ kept : List RawCustomer,
      clean_customers rows = kept.map cleanCustomerRow ∧
      kept.Sublist (rows.filter (fun r => !(r.customer_id.isNull))) ∧
      (kept.map (fun r => r.customer_id)).Nodup ∧
      (∀ r ∈ kept,
        (rows.filter (fun r => !(r.customer_id.isNull))).find?
            (fun x => decide (x.customer_id = r.customer_id)) = some r) ∧
      (∀ r ∈ rows, r.customer_id.isNull = false →
        r.customer_id ∈ kept.map (fun x => x.customer_id)) := by
  refine ⟨dropDuplicatesBy [] (rows.filter (fun r => !(r.customer_id.isNull))),
    rfl, dropDup_sublist _ _, (dropDup_keys _ _).2, ?_, ?_⟩
  · intro r hr
    exact ((dropDup_mem [] _ r).mp hr).2
  · intro r hr hnn
    exact dropDup_keys_cover [] _ r
      (List.mem_filter.mpr ⟨hr, by simp [hnn]⟩) (by simp)

/-- C10 witness: the characterization applied to a concrete row-set with
a repeated raw key "a". -/
theorem c10_keep_first_witness :
    ∃ kept : List RawCustomer,
      clean_customers
          [⟨.vStr "a", "p@q.r", "01/01/2023"⟩,
           ⟨.vStr "a", "s@t.u", "02/01/2023"⟩,
           ⟨.vStr "b", "v@w.x", "03/01/2023"⟩] = kept.map cleanCustomerRow ∧
      kept.Sublist
        (([⟨.vStr "a", "p@q.r", "01/01/2023"⟩,
           ⟨.vStr "a", "s@t.u", "02/01/2023"⟩,
           ⟨.vStr "b", "v@w.x", "03/01/2023"⟩] : List RawCustomer).filter
          (fun r => !(r.customer_id.isNull))) ∧
      (kept.map (fun r => r.customer_id)).Nodup ∧
      (∀ r ∈ kept,
        (([⟨.vStr "a", "p@q.r", "01/01/2023"⟩,
           ⟨.vStr "a", "s@t.u", "02/01/2023"⟩,
           ⟨.vStr "b", "v@w.x", "03/01/2023"⟩] : List RawCustomer).filter
            (fun r => !(r.customer_id.isNull))).find?
              (fun x => decide (x.customer_id = r.customer_id)) = some r) ∧
      (∀ r ∈ ([⟨.vStr "a", "p@q.r", "01/01/2023"⟩,
               ⟨.vStr "a", "s@t.u", "02/01/2023"⟩,
               ⟨.vStr "b", "v@w.x", "03/01/2023"⟩] : List RawCustomer),
        r.customer_id.isNull = false →
          r.customer_id ∈ kept.map (fun x => x.customer_id)) :=
  c10_keep_first
    [⟨.vStr "a", "p@q.r", "01/01/2023"⟩,
     ⟨.vStr "a", "s@t.u", "02/01/2023"⟩,
     ⟨.vStr "b", "v@w.x", "03/01/2023"⟩]

/- ---------------------------------------------------------------------
   Claim C6.
--------------------------------------------------------------------- -/

/-- C6: `build_reconciled_dataset` (modelled from the spec, see its
definition) is a left join: it has exactly one output row per order row,
in order; each output row carries the order's own columns unchanged;
`customer_exists` is true exactly when some customer shares the
normalized key; when no customer matches, the customer-side columns are
null and the two customer-side validity flags are `false`; when one
matches, the row carries that customer's columns and flags. -/
theorem c6_left_join (cs : List Customer) (os : List Order) :
    (build_reconciled_dataset cs os).length = os.length ∧
    ∀ (i : Nat) (o : Order), os[i]? = some o →
      ∃ row : CombinedRow, (build_reconciled_dataset cs os)[i]? = some row ∧
        row.order_id = o.order_id ∧ row.customer_id = o.customer_id ∧
        row.amount = o.amount ∧ row.amount_valid = o.amount_valid ∧
        row.order_date = o.order_date ∧
        row.order_date_valid = o.order_date_valid ∧
        (row.customer_exists = true ↔
          ∃ c ∈ cs, specNormalize c.customer_id = specNormalize o.customer_id) ∧
        (row.customer_exists = false →
          row.email = none ∧ row.email_valid = false ∧
          row.signup_date = none ∧ row.signup_date_valid = false) ∧
        (row.customer_exists = true →
          ∃ c ∈ cs, specNormalize c.customer_id = specNormalize o.customer_id ∧
            row.email = some c.email ∧ row.email_valid = c.email_valid ∧
            row.signup_date = c.signup_date ∧
            row.signup_date_valid = c.signup_date_valid) := by
  constructor
  · simp [build_reconciled_dataset]
  · intro i o hio
    refine ⟨joinRow cs o, ?_, ?_⟩
    · simp [build_reconciled_dataset, hio]
    · cases hfind : cs.find?
          (fun c => decide (specNormalize c.customer_id = specNormalize o.customer_id)) with
      | none =>
        have hnone := List.find?_eq_none.mp hfind
        have hj : joinRow cs o = ⟨o.order_id, o.customer_id, o.amount,
            o.amount_valid, o.order_date, o.order_date_valid,
            none, false, none, false, false⟩ := by
          unfold joinRow
          rw [hfind]
        rw [hj]
        refine ⟨rfl, rfl, rfl, rfl, rfl, rfl, ?_,
          fun _ => ⟨rfl, rfl, rfl, rfl⟩,
          fun htrue => absurd htrue Bool.false_ne_true⟩
        constructor
        · intro htrue
          exact absurd htrue Bool.false_ne_true
        · rintro ⟨c, hc, he⟩
          exact absurd (decide_eq_true he) (by simpa using hnone c hc)
      | some c =>
        have hc : c ∈ cs := List.mem_of_find?_eq_some hfind
        have he : specNormalize c.customer_id = specNormalize o.customer_id := by
          have h2 := List.find?_some hfind
          simpa using h2
        have hj : joinRow cs o = ⟨o.order_id, o.customer_id, o.amount,
            o.amount_valid, o.order_date, o.order_date_valid,
            some c.email, c.email_valid, c.signup_date,
            c.signup_date_valid, true⟩ := by
          unfold joinRow
          rw [hfind]
        rw [hj]
        exact ⟨rfl, rfl, rfl, rfl, rfl, rfl,
          ⟨fun _ => ⟨c, hc, he⟩, fun _ => rfl⟩,
          fun hfalse => absurd hfalse.symm Bool.false_ne_true,
          fun _ => ⟨c, hc, he, rfl, rfl, rfl, rfl⟩⟩

/-- C6 witness: applied to a concrete matched pair with distinct raw but
equal normalized keys, the first combined row exists and matches. -/
theorem c6_left_join_witness :
    ∃ row : CombinedRow, (build_reconciled_dataset
        [⟨.vStr "abc", "a@x.com", true, none, false⟩]
        [⟨.vInt 10, .vStr " ABC ", some 5, true, none, false⟩])[0]? = some row ∧
      row.order_id = Val.vInt 10 ∧ row.customer_id = Val.vStr " ABC " ∧
      row.amount = some 5 ∧ row.amount_valid = true ∧
      row.order_date = none ∧ row.order_date_valid = false ∧
      (row.customer_exists = true ↔
        ∃ c ∈ ([⟨.vStr "abc", "a@x.com", true, none, false⟩] : List Customer),
          specNormalize c.customer_id = specNormalize (Val.vStr " ABC ")) ∧
      (row.customer_exists = false →
        row.email = none ∧ row.email_valid = false ∧
        row.signup_date = none ∧ row.signup_date_valid = false) ∧
      (row.customer_exists = true →
        ∃ c ∈ ([⟨.vStr "abc", "a@x.com", true, none, false⟩] : List Customer),
          specNormalize c.customer_id = specNormalize (Val.vStr " ABC ") ∧
            row.email = some c.email ∧ row.email_valid = c.email_valid ∧
            row.signup_date = c.signup_date ∧
            row.signup_date_valid = c.signup_date_valid) :=
  (c6_left_join
      [⟨.vStr "abc", "a@x.com", true, none, false⟩]
      [⟨.vInt 10, .vStr " ABC ", some 5, true, none, false⟩]).2 0
    ⟨.vInt 10, .vStr " ABC ", some 5, true, none, false⟩ rfl

/- ---------------------------------------------------------------------
   Claim C7: characterization of the regex prefix match, then the claim.
--------------------------------------------------------------------- -/

lemma findAt_eq_some (cs rest : List Char) :
    findAt cs = some rest ↔ ∃ l, cs = l ++ '@' :: rest ∧ '@' ∉ l := by
  induction cs with
  | nil =>
    constructor
    · intro h
      simp [findAt] at h
    · rintro ⟨l, heq, -⟩
      rcases l with _ | ⟨a, l'⟩ <;> simp at heq
  | cons c cs ih =>
    by_cases hc : c = '@'
    · subst hc
      rw [show findAt ('@' :: cs) = some cs from by simp [findAt]]
      constructor
      · intro h
        obtain rfl := Option.some.inj h
        exact ⟨[], rfl, by simp⟩
      · rintro ⟨l, heq, hl⟩
        rcases l with _ | ⟨a, l'⟩
        · simpa using heq
        · simp only [List.cons_append, List.cons.injEq] at heq
          exact absurd (heq.1 ▸ List.mem_cons_self a l') (fun h => hl h)
    · rw [show findAt (c :: cs) = findAt cs from by simp [findAt, hc], ih]
      constructor
      · rintro ⟨l, rfl, hl⟩
        refine ⟨c :: l, rfl, ?_⟩
        simp only [List.mem_cons, not_or]
        exact ⟨fun h => hc h.symm, hl⟩
      · rintro ⟨l, heq, hl⟩
        rcases l with _ | ⟨a, l'⟩
        · simp only [List.nil_append, List.cons.injEq] at heq
          exact absurd heq.1 hc
        · simp only [List.cons_append, List.cons.injEq] at heq
          refine ⟨l', heq.2, fun h => hl (List.mem_cons_of_mem _ h)⟩

lemma tailMatch_iff (rest : List Char) (seen : Bool) :
    tailMatch seen rest = true ↔
      ∃ m c t, rest = m ++ '.' :: c :: t ∧ '@' ∉ m ∧ c ≠ '@' ∧
        (m ≠ [] ∨ seen = true) := by
  induction rest generalizing seen with
  | nil =>
    constructor
    · intro h
      simp [tailMatch] at h
    · rintro ⟨m, c, t, heq, -, -, -⟩
      rcases m with _ | ⟨a, m'⟩ <;> simp at heq
  | cons x r ih =>
    by_cases hx : x = '@'
    · subst hx
      constructor
      · intro h
        simp [tailMatch] at h
      · rintro ⟨m, c, t, heq, hm, -, -⟩
        rcases m with _ | ⟨a, m'⟩
        · simp at heq
        · simp only [List.cons_append, List.cons.injEq] at heq
          exact absurd (heq.1 ▸ List.mem_cons_self a m') (fun h => hm h)
    · by_cases hsd : seen = true ∧ x = '.'
      · obtain ⟨rfl, rfl⟩ := hsd
        cases r with
        | nil =>
          constructor
          · intro h
            simp [tailMatch] at h
          · rintro ⟨m, c, t, heq, -, -, -⟩
            rcases m with _ | ⟨a, m'⟩ <;> simp at heq
        | cons d r' =>
          constructor
          · intro h
            have hd : d ≠ '@' := by simpa [tailMatch, hx] using h
            exact ⟨[], d, r', rfl, by simp, hd, Or.inr rfl⟩
          · rintro ⟨m, c, t, heq, hm, hc, -⟩
            show tailMatch true ('.' :: d :: r') = true
            have hd : d ≠ '@' := by
              rcases m with _ | ⟨a, m'⟩
              · simp only [List.nil_append, List.cons.injEq] at heq
                exact heq.2.1 ▸ hc
              · simp only [List.cons_append, List.cons.injEq] at heq
                rcases m' with _ | ⟨b, m''⟩
                · simp only [List.nil_append, List.cons.injEq] at heq
                  intro hda
                  rw [hda] at heq
                  exact absurd heq.2.1 (by decide)
                · simp only [List.cons_append, List.cons.injEq] at heq
                  intro hda
                  apply hm
                  have hb : b = '@' := by rw [← heq.2.1, hda]
                  rw [hb]
                  exact List.mem_cons_of_mem a (List.mem_cons_self '@' m'')
            simpa [tailMatch, hx] using hd
      · have hstep : tailMatch seen (x :: r) = tailMatch true r := by
          simp only [tailMatch]
          rw [if_neg hx, if_neg hsd]
        rw [hstep, ih true]
        constructor
        · rintro ⟨m, c, t, rfl, hm, hc, -⟩
          refine ⟨x :: m, c, t, rfl, ?_, hc, Or.inl (by simp)⟩
          simp only [List.mem_cons, not_or]
          exact ⟨fun h => hx h.symm, hm⟩
        · rintro ⟨m, c, t, heq, hm, hc, hmn⟩
          rcases m with _ | ⟨a, m'⟩
          · simp only [List.nil_append, List.cons.injEq] at heq
            rcases hmn with h1 | h2
            · exact absurd rfl h1
            · exact absurd ⟨h2, heq.1⟩ hsd
          · simp only [List.cons_append, List.cons.injEq] at heq
            refine ⟨m', c, t, heq.2, fun h => hm (List.mem_cons_of_mem _ h),
              hc, Or.inr rfl⟩

lemma emailMatchCore_iff (cs : List Char) :
    emailMatchCore cs = true ↔
      ∃ l m c t, cs = l ++ '@' :: (m ++ '.' :: c :: t) ∧
        l ≠ [] ∧ '@' ∉ l ∧ m ≠ [] ∧ '@' ∉ m ∧ c ≠ '@' := by
  cases cs with
  | nil =>
    constructor
    · intro h
      simp [emailMatchCore] at h
    · rintro ⟨l, m, c, t, heq, -, -, -, -, -⟩
      rcases l with _ | ⟨a, l'⟩ <;> simp at heq
  | cons c0 cs0 =>
    simp only [emailMatchCore]
    by_cases hc0 : c0 = '@'
    · rw [if_pos hc0]
      subst hc0
      constructor
      · intro h
        exact absurd h Bool.false_ne_true
      · rintro ⟨l, m, c, t, heq, hl, hla, -, -, -⟩
        rcases l with _ | ⟨a, l'⟩
        · exact absurd rfl hl
        · simp only [List.cons_append, List.cons.injEq] at heq
          exact absurd (heq.1 ▸ List.mem_cons_self a l') (fun h => hla h)
    · rw [if_neg hc0]
      cases hfa : findAt cs0 with
      | none =>
        constructor
        · intro h
          exact absurd h Bool.false_ne_true
        · rintro ⟨l, m, c, t, heq, hl, hla, -, -, -⟩
          rcases l with _ | ⟨a, l'⟩
          · exact absurd rfl hl
          · simp only [List.cons_append, List.cons.injEq] at heq
            have hsome : findAt cs0 = some (m ++ '.' :: c :: t) :=
              (findAt_eq_some cs0 _).mpr
                ⟨l', heq.2, fun h => hla (List.mem_cons_of_mem _ h)⟩
            rw [hfa] at hsome
            cases hsome
      | some rest =>
        change tailMatch false rest = true ↔ _
        rw [tailMatch_iff rest false]
        obtain ⟨l0, rfl, hl0⟩ := (findAt_eq_some cs0 rest).mp hfa
        constructor
        · rintro ⟨m, c, t, rfl, hm, hc, hmn⟩
          have hm0 : m ≠ [] := by
            rcases hmn with h | h
            · exact h
            · cases h
          refine ⟨c0 :: l0, m, c, t, rfl, by simp, ?_, hm0, hm, hc⟩
          simp only [List.mem_cons, not_or]
          exact ⟨fun h => hc0 h.symm, hl0⟩
        · rintro ⟨l, m, c, t, heq, hl, hla, hm0, hm, hc⟩
          rcases l with _ | ⟨a, l'⟩
          · exact absurd rfl hl
          · simp only [List.cons_append, List.cons.injEq] at heq
            have huniq : findAt (l0 ++ '@' :: rest) = some (m ++ '.' :: c :: t) :=
              (findAt_eq_some _ _).mpr
                ⟨l', heq.2, fun h => hla (List.mem_cons_of_mem _ h)⟩
            rw [hfa] at huniq
            obtain rfl := Option.some.inj huniq
            exact ⟨m, c, t, rfl, hm, hc, Or.inl hm0⟩

lemma emailMatch_iff (s : String) :
    emailMatch s = true ↔
      ∃ l m c t, s.data = l ++ '@' :: (m ++ '.' :: c :: t) ∧
        l ≠ [] ∧ '@' ∉ l ∧ m ≠ [] ∧ '@' ∉ m ∧ c ≠ '@' :=
  emailMatchCore_iff s.data

/-- C7 counterexample: the claim states `email_valid` is true iff the
WHOLE email string is of the "local at domain dot tld" shape, strings
with extra content beyond the shape being invalid.  For "a@b.c." the
last dot is the final character, so the claimed shape fails; but
`Series.str.match` only anchors the regex at the start, so the code sets
`email_valid = True`. -/
theorem c7_counterexample :
    ¬ (∀ r ∈ clean_customers [⟨.vInt 1, "a@b.c.", "01/01/2023"⟩],
        (r.email_valid = true ↔ specEmailShape r.email = true)) := by
  decide

/-- C7 (amended): `email_valid` is computed by `re.match` of
`EMAIL_REGEX`, which is a PREFIX match: it is true iff the string
decomposes as a non-empty at-free local part, an at sign, a non-empty
at-free middle, a dot, and at least one further non-at character — with
arbitrary trailing content allowed after that point.  Every cleaned
row's flag equals this match of its email string. -/
theorem c7_amended (s : String) :
    (emailMatch s = true ↔
      ∃ l m c t, s.data = l ++ '@' :: (m ++ '.' :: c :: t) ∧
        l ≠ [] ∧ '@' ∉ l ∧ m ≠ [] ∧ '@' ∉ m ∧ c ≠ '@') ∧
    ∀ (rows : List RawCustomer) (r : Customer),
      r ∈ clean_customers rows → r.email_valid = emailMatch r.email := by
  refine ⟨emailMatch_iff s, ?_⟩
  intro rows r hr
  simp only [clean_customers] at hr
  obtain ⟨q, hq, rfl⟩ := List.mem_map.mp hr
  rfl

/-- C7 witness: the amended characterization instantiated at the string
"a@b.c x", which the code accepts despite the trailing junk. -/
theorem c7_amended_witness :
    ∃ l m c t, ("a@b.c x").data = l ++ '@' :: (m ++ '.' :: c :: t) ∧
      l ≠ [] ∧ '@' ∉ l ∧ m ≠ [] ∧ '@' ∉ m ∧ c ≠ '@' :=
  (c7_amended "a@b.c x").1.mp (by decide)

end EtlRecon
